import Mathlib

/-!
Verification of the tryexpand snapshot-testing harness.

Strings are modelled as `List Char`.  Each definition is a direct shallow
embedding of the corresponding Rust function from the repository sources
(`src/cargo.rs`, `src/test.rs`, `src/normalization/…`, `src/test_suite.rs`),
keeping the source's names and argument order where Lean allows it.
-/

namespace Tryexpand

/-- Character-level model of Rust strings. -/
abbrev Str := List Char

/-- The Unicode `White_Space` property, as used by Rust's
`char::is_whitespace` (25 code points). -/
def rustIsWhitespace (c : Char) : Bool :=
  let n := c.toNat
  n = 0x09 || n = 0x0A || n = 0x0B || n = 0x0C || n = 0x0D || n = 0x20 ||
  n = 0x85 || n = 0xA0 || n = 0x1680 ||
  (0x2000 ≤ n && n ≤ 0x200A) ||
  n = 0x2028 || n = 0x2029 || n = 0x202F || n = 0x205F || n = 0x3000

/-- Rust `str::trim_start`. -/
def trimStart (s : Str) : Str := s.dropWhile rustIsWhitespace

/-- Rust `str::trim_end`. -/
def trimEnd (s : Str) : Str := ((s.reverse).dropWhile rustIsWhitespace).reverse

/-- Rust `str::trim`: strips Unicode whitespace from both ends. -/
def trim (s : Str) : Str := trimEnd (trimStart s)

/-- Rust `str::starts_with` for a string pattern. -/
def startsWith (s pat : Str) : Bool := pat.isPrefixOf s

/-- Rust `str::ends_with` for a string pattern. -/
def endsWith (s pat : Str) : Bool := pat.isSuffixOf s

/-- Rust `str::contains` for a string pattern. -/
def containsStr (s pat : Str) : Bool := s.tails.any (fun t => pat.isPrefixOf t)

/-- Helper for `rustLines`: the current (reversed) line accumulator is closed
by a `'\n'`; a `'\r'` immediately preceding the `'\n'` is stripped, mirroring
how Rust's `str::lines` treats a `"\r\n"` terminator. -/
def dropCR (l : Str) : Str :=
  match l with
  | [] => []
  | c :: rest => if c = '\r' then rest else c :: rest

/-- Worker for `rustLines`; `acc` is the reversed current line. -/
def linesAux : Str → Str → List Str
  | [], acc => if acc.isEmpty then [] else [acc.reverse]
  | c :: rest, acc =>
    if c = '\n' then (dropCR acc).reverse :: linesAux rest []
    else linesAux rest (c :: acc)

/-- Rust `str::lines`: splits on `'\n'` terminators, stripping a `'\r'` that
immediately precedes a `'\n'`; a final line ending is optional, and the empty
string has no lines. -/
def rustLines (s : Str) : List Str := linesAux s []

/-- Rust `str::replace`: replaces every non-overlapping occurrence of `pat`
(left to right) by `rep`.  The Rust patterns fed to it in this codebase are
nonempty; an empty pattern is mapped to the identity here. -/
def replaceAll (pat rep : Str) (s : Str) : Str :=
  if h : pat = [] then s
  else
    match s with
    | [] => []
    | c :: rest =>
      if pat.isPrefixOf (c :: rest) then
        rep ++ replaceAll pat rep ((c :: rest).drop pat.length)
      else
        c :: replaceAll pat rep rest
  termination_by s.length
  decreasing_by
  · simp only [List.length_drop, List.length_cons]
    have hp : 0 < pat.length := List.length_pos.mpr h
    omega
  · simp

/-- From `src/normalization/utils.rs`: appends a `'\n'` unless the input
already ends with one (Rust `input.ends_with('\n')`). -/
def ensure_trailing_newline (input : Str) : Str :=
  if input.getLast? = some '\n' then input else input ++ ['\n']

/-- From `src/normalization/utils.rs`: true when the string is empty or all
of its characters are whitespace. -/
def is_empty_or_only_whitespace (string : Str) : Bool :=
  string.isEmpty || string.all rustIsWhitespace

/-- From `src/normalization/utils.rs`: replaces the string with `none` if it
is empty or whitespace-only, and ensures a trailing newline otherwise. -/
def post_process (input : Str) : Option Str :=
  if is_empty_or_only_whitespace input then none
  else some (ensure_trailing_newline input)

/-- From `src/test.rs`: one test case (binary-target name plus source path). -/
structure Test where
  bin : Str
  path : Str
deriving DecidableEq

/-- From `src/project.rs`: the synthesized ephemeral project. -/
structure Project where
  dir : Str
  manifest_dir : Str
  target_dir : Str
  name : Str
  tests : List Test
deriving DecidableEq

/-- From `src/normalization/utils.rs`: the placeholder substitutions applied
to captured output (`bin ↦ "<BIN>"`, `crate name ↦ "<CRATE>"`, manifest
directory ↦ deleted). -/
def project_info_replacements (project : Project) (test : Test) :
    List (Str × Str) :=
  [(test.bin, ("<BIN>".toList)),
   (project.name, ("<CRATE>".toList)),
   (project.manifest_dir, [])]

/-- From `src/normalization/utils.rs`: folds the replacement list over the
string, replacing a pattern only when it occurs (Rust `str::contains` guard
followed by `str::replace`). -/
def apply_replacements (string : Str) (replacements : List (Str × Str)) : Str :=
  replacements.foldl
    (fun string pr =>
      if containsStr string pr.1 then replaceAll pr.1 pr.2 string else string)
    string

/-- From `src/cargo.rs` (`line_is_error`): a trimmed line starting with
"error[" or "error:" marks a compile error in stderr. -/
def line_is_error (line : Str) : Bool :=
  let line := trim line
  if startsWith line ("error[".toList) then true
  else if startsWith line ("error:".toList) then true
  else false

/-- From `src/cargo.rs` (`line_is_warning`). -/
def line_is_warning (line : Str) : Bool :=
  let line := trim line
  startsWith line ("warning:".toList)

/-- From `src/cargo.rs` (`line_should_be_omitted`). -/
def line_should_be_omitted (line : Str) : Bool :=
  let line := trim line
  startsWith line ("error: could not compile".toList) &&
    endsWith line ("due to previous error".toList)

/-- Rust `Iterator::skip_while` with the given predicate, on a list. -/
def skipWhile (p : Str → Bool) : List Str → List Str
  | [] => []
  | l :: rest => if p l then skipWhile p rest else l :: rest

/-- Rust `[&str]::join("\n")`. -/
def joinLF : List Str → Str
  | [] => []
  | [x] => x
  | x :: y :: rest => x ++ '\n' :: joinLF (y :: rest)

/-- The same line list joined with CRLF line endings instead. -/
def joinCRLF : List Str → Str
  | [] => []
  | [x] => x
  | x :: y :: rest => x ++ '\r' :: '\n' :: joinCRLF (y :: rest)

namespace Normalization

/-- From `src/normalization/expand.rs` (`stdout`): the prelude-stripping
pretty-printing round trip (`syn` parse + `prettyplease::unparse`) is an
external deterministic text transformation, taken here as the parameter
`strip_prelude`; its output is then post-processed. -/
def expand_stdout (strip_prelude : Str → Str) (input : Str) : Option Str :=
  post_process (strip_prelude input)

/-- From `src/normalization/expand.rs` (`stderr`): trim, drop leading lines
up to the first error marker, drop omitted/warning lines, apply the project
placeholder replacements per line, re-join and post-process. -/
def expand_stderr (input : Str) (project : Project) (test : Test) : Option Str :=
  let replacements := project_info_replacements project test
  let trimmed_input := trim input
  let output :=
    joinLF
      (((skipWhile (fun line => !(line_is_error line)) (rustLines trimmed_input)).filter
            (fun line => !(line_should_be_omitted line))).filter
          (fun line => !(line_is_warning line))
        |>.map (fun line => apply_replacements line replacements))
  post_process output

end Normalization

/-- From `src/test.rs`: binary pass/fail verdict of one action. -/
inductive TestStatus where
  | Success
  | Failure
deriving DecidableEq

/-- From `src/test.rs` (`TestStatus::success`). -/
def TestStatus.success (is_success : Bool) : TestStatus :=
  match is_success with
  | true => .Success
  | false => .Failure

/-- From `src/test.rs` (`TestStatus::failure`). -/
def TestStatus.failure (is_failure : Bool) : TestStatus :=
  TestStatus.success (!is_failure)

/-- From `src/test.rs` (`impl BitAnd for TestStatus`). -/
def TestStatus.band (s rhs : TestStatus) : TestStatus :=
  match s, rhs with
  | .Success, .Success => .Success
  | _, _ => .Failure

/-- From `src/cargo.rs`: captured output of one cargo invocation, after
per-stream normalization. -/
structure CargoOutput where
  stdout : Option Str
  stderr : Option Str
  evaluation : TestStatus
deriving DecidableEq

/-- From `src/cargo.rs` (`expand`, lines 93–105): on a successful exit the
normalized stderr is additionally scanned for error-marker lines; a process
failure is kept as-is. -/
def expand_evaluation (evaluation : TestStatus) (stderr : Option Str) :
    TestStatus :=
  match evaluation with
  | .Success =>
    match stderr with
    | some stderr =>
      let found_errors := (rustLines stderr).any line_is_error
      TestStatus.failure found_errors
    | none => .Success
  | .Failure => .Failure

/-- From `src/cargo.rs` (`test`, lines 176–178): the stderr marker scanned
for by the Test action. -/
def line_is_test_failed (line : Str) : Bool :=
  startsWith line ("test result: FAILED.".toList)

/-- From `src/cargo.rs` (`test`, lines 171–185): same structure as
`expand_evaluation` but scanning for the "test result: FAILED." marker. -/
def test_evaluation (evaluation : TestStatus) (stderr : Option Str) :
    TestStatus :=
  match evaluation with
  | .Success =>
    match stderr with
    | some stderr =>
      let found_errors := (rustLines stderr).any line_is_test_failed
      TestStatus.failure found_errors
    | none => .Success
  | .Failure => .Failure

/-- From `src/cargo.rs` (`expand`, lines 70–112): normalize both captured
streams and re-derive the evaluation from the normalized stderr.  The
`strip_prelude` parameter stands for the external `syn`/`prettyplease`
round trip used by stdout normalization. -/
def expand (raw : CargoOutput) (strip_prelude : Str → Str) (project : Project)
    (test : Test) : CargoOutput :=
  let stdout := raw.stdout.bind (fun s => Normalization.expand_stdout strip_prelude s)
  let stderr := raw.stderr.bind (fun s => Normalization.expand_stderr s project test)
  { stdout := stdout, stderr := stderr,
    evaluation := expand_evaluation raw.evaluation stderr }

/-- From `src/test.rs`: the fine-grained per-snapshot comparison result. -/
inductive TestOutcome where
  | SnapshotMatch (path : Str)
  | SnapshotMismatch (path : Str) (actual : Str) (expected : Str)
  | SnapshotCreated (path : Str) (after : Str)
  | SnapshotUpdated (path : Str) (before : Str) (after : Str)
  | SnapshotExpected (path : Str) (content : Str)
  | SnapshotUnexpected (path : Str) (content : Str)
  | UnexpectedSuccess (source : Str) (expanded output error : Option Str)
  | UnexpectedFailure (source : Str) (expanded output error : Option Str)
deriving DecidableEq

/-- From `src/test.rs` (`TestOutcome::as_status`). -/
def TestOutcome.as_status : TestOutcome → TestStatus
  | .SnapshotMatch _ => .Success
  | .SnapshotMismatch _ _ _ => .Failure
  | .SnapshotCreated _ _ => .Success
  | .SnapshotUpdated _ _ _ => .Success
  | .SnapshotExpected _ _ => .Failure
  | .SnapshotUnexpected _ _ => .Failure
  | .UnexpectedSuccess _ _ _ _ => .Failure
  | .UnexpectedFailure _ _ _ _ => .Failure

/-- From `src/test.rs`: snapshot-write policy. -/
inductive TestBehavior where
  | OverwriteFiles
  | ExpectFiles
deriving DecidableEq

/-- From `src/test.rs` (`Comparison`). -/
inductive Comparison where
  | Match
  | Mismatch
deriving DecidableEq

/-- From `src/test.rs` (`Test::compare`): line-iterator equality
(`actual.lines().eq(expected.lines())`). -/
def Test.compare (actual expected : Str) : Comparison :=
  if rustLines actual = rustLines expected then .Match else .Mismatch

/-- From `src/test.rs` (`evaluate_snapshot_overwriting_files`): returns the
emitted outcome (if any) together with the file writes performed, in order. -/
def evaluate_snapshot_overwriting_files (expected actual : Option Str)
    (snapshot_path : Str) : Option TestOutcome × List (Str × Str) :=
  match actual with
  | none => (none, [])
  | some actual =>
    match expected with
    | some expected =>
      if actual = expected then (none, [])
      else
        (some (.SnapshotUpdated snapshot_path expected actual),
         [(snapshot_path, actual)])
    | none =>
      (some (.SnapshotCreated snapshot_path actual), [(snapshot_path, actual)])

/-- From `src/test.rs` (`evaluate_snapshot_expecting_files`): pure
comparison against the on-disk snapshot; never writes a file. -/
def evaluate_snapshot_expecting_files (expected actual : Option Str)
    (snapshot_path : Str) : Option TestOutcome × List (Str × Str) :=
  match actual, expected with
  | none, none => (some (.SnapshotMatch snapshot_path), [])
  | none, some expected => (some (.SnapshotUnexpected snapshot_path expected), [])
  | some actual, none => (some (.SnapshotExpected snapshot_path actual), [])
  | some actual, some expected =>
    match Test.compare actual expected with
    | .Match => (some (.SnapshotMatch snapshot_path), [])
    | .Mismatch =>
      (some (.SnapshotMismatch snapshot_path actual expected), [])

/-- The on-disk snapshot state: maps a path to the file's content, `none`
when the file does not exist. -/
def FileSystem := Str → Option Str

/-- Applies a list of writes to the file-system model. -/
def applyWrites (fs : FileSystem) (writes : List (Str × Str)) : FileSystem :=
  writes.foldl (fun f pw => fun q => if q = pw.1 then some pw.2 else f q) fs

/-- One step of the `evaluate_snapshots` loop from `src/test.rs`: look up the
on-disk snapshot, resolve per the behavior, thread the writes through the
file-system state, and collect the emitted outcome (if any). -/
def snapshot_step (behavior : TestBehavior)
    (acc : FileSystem × List TestOutcome × List (Str × Str))
    (sn : Str × Option Str) :
    FileSystem × List TestOutcome × List (Str × Str) :=
  let fs := acc.1
  let expected := fs sn.1
  let res :=
    match behavior with
    | .OverwriteFiles => evaluate_snapshot_overwriting_files expected sn.2 sn.1
    | .ExpectFiles => evaluate_snapshot_expecting_files expected sn.2 sn.1
  (applyWrites fs res.2, acc.2.1 ++ res.1.toList, acc.2.2 ++ res.2)

/-- The outcome-collection phase of `evaluate_snapshots` (`src/test.rs`,
lines 426–449): per-pair resolution in order, with file writes visible to
later iterations. -/
def collect_outcomes (snapshots : List (Str × Option Str))
    (behavior : TestBehavior) (fs : FileSystem) :
    FileSystem × List TestOutcome × List (Str × Str) :=
  snapshots.foldl (snapshot_step behavior) (fs, [], [])

/-- From `src/test.rs` (`evaluate_snapshots`, lines 420–467): collects the
per-stream outcomes, partitions them by status, reports the failures (or,
when there are none, the successes) to the observer, and aggregates.
Returns (status, outcomes observed in order, writes performed). -/
def evaluate_snapshots (snapshots : List (Str × Option Str))
    (behavior : TestBehavior) (fs : FileSystem) :
    TestStatus × List TestOutcome × List (Str × Str) :=
  let collected := collect_outcomes snapshots behavior fs
  let outcomes := collected.2.1
  let part := outcomes.partition (fun outcome => outcome.as_status = .Success)
  if !part.2.isEmpty then (.Failure, part.2, collected.2.2)
  else (.Success, part.1, collected.2.2)

/-- From `src/test.rs`: the post-action kinds (Expand is not available as a
post-action). -/
inductive PostAction where
  | Check
  | Test
  | Run
deriving DecidableEq

/-- From `src/test.rs` (`ActionOutput`). -/
inductive ActionOutput where
  | Expand (output : CargoOutput)
  | Check (output : CargoOutput)
  | Test (output : CargoOutput)
  | Run (output : CargoOutput)
deriving DecidableEq

/-- From `src/test.rs` (`ActionOutput::output`). -/
def ActionOutput.output : ActionOutput → CargoOutput
  | .Expand output => output
  | .Check output => output
  | .Test output => output
  | .Run output => output

/-- From `src/test.rs` (`ActionOutput::evaluation`). -/
def ActionOutput.evaluation : ActionOutput → TestStatus
  | .Expand output => output.evaluation
  | .Check output => output.evaluation
  | .Test output => output.evaluation
  | .Run output => output.evaluation

/-- From `src/test.rs` (`TestReport`). -/
structure TestReport where
  action : ActionOutput
  post_action : Option ActionOutput
deriving DecidableEq

/-- From `src/test.rs` (`TestReport::evaluation`): the primary evaluation,
AND-combined with the post-action's evaluation when one is present. -/
def TestReport.evaluation (r : TestReport) : TestStatus :=
  match r.post_action with
  | some post_action => TestStatus.band r.action.evaluation post_action.evaluation
  | none => r.action.evaluation

/-- From `src/test.rs` (`Test::run`, lines 246–259): the configured
post-action is executed only when the primary action evaluated to Success.
`run_post` stands for the cargo invocation performed for the post-action. -/
def make_report (action_output : ActionOutput) (post_action : Option PostAction)
    (run_post : PostAction → ActionOutput) : TestReport :=
  { action := action_output,
    post_action :=
      if action_output.evaluation = .Success then post_action.map run_post
      else none }

/-- From `src/error.rs`: the error cases relevant to environment parsing. -/
inductive HarnessError where
  | UnrecognizedEnv (key : Str) (value : Str)
deriving DecidableEq

/-- From `src/lib.rs`: the behavior-selecting environment key and values. -/
def TRYEXPAND_ENV_KEY : Str := ("TRYEXPAND".toList)

/-- Value selecting ExpectFiles behavior. -/
def TRYEXPAND_ENV_VAL_EXPECT : Str := ("expect".toList)

/-- Value selecting OverwriteFiles behavior. -/
def TRYEXPAND_ENV_VAL_OVERWRITE : Str := ("overwrite".toList)

/-- From `src/test_suite.rs` (`test_behavior_from_env`, lines 869–883) and
the identical `test_behavior` in `src/run.rs`: `var` is the value of the
`TRYEXPAND` environment variable (`none` when unset). -/
def test_behavior_from_env (var : Option Str) :
    Except HarnessError TestBehavior :=
  match var with
  | none => .ok .ExpectFiles
  | some value =>
    if value = TRYEXPAND_ENV_VAL_EXPECT then .ok .ExpectFiles
    else if value = TRYEXPAND_ENV_VAL_OVERWRITE then .ok .OverwriteFiles
    else .error (.UnrecognizedEnv TRYEXPAND_ENV_KEY value)

/-! ### Helper lemmas about line splitting -/

lemma linesAux_cons (c : Char) (rest acc : Str) :
    linesAux (c :: rest) acc =
      if c = '\n' then (dropCR acc).reverse :: linesAux rest []
      else linesAux rest (c :: acc) := rfl

lemma linesAux_cons_newline (rest acc : Str) :
    linesAux ('\n' :: rest) acc = (dropCR acc).reverse :: linesAux rest [] := by
  rw [linesAux_cons, if_pos rfl]

lemma linesAux_cons_other (c : Char) (h : c ≠ '\n') (rest acc : Str) :
    linesAux (c :: rest) acc = linesAux rest (c :: acc) := by
  rw [linesAux_cons, if_neg h]

lemma dropCR_of_head (l : Str) (h : l.head? ≠ some '\r') : dropCR l = l := by
  cases l with
  | nil => rfl
  | cons c t =>
    have hc : c ≠ '\r' := by
      intro hc
      exact h (by simp [hc])
    simp [dropCR, hc]

lemma dropCR_reverse (x : Str) (h : '\r' ∉ x) : dropCR x.reverse = x.reverse := by
  apply dropCR_of_head
  cases hx : x.reverse with
  | nil => simp
  | cons c t =>
    have hc : c ∈ x := List.mem_reverse.mp (hx ▸ List.mem_cons_self c t)
    have : c ≠ '\r' := fun hcr => h (hcr ▸ hc)
    simp [this]

lemma linesAux_append_no_newline (x : Str) (hx : '\n' ∉ x) :
    ∀ (s acc : Str), linesAux (x ++ s) acc = linesAux s (x.reverse ++ acc) := by
  induction x with
  | nil => intro s acc; simp
  | cons c r ih =>
    intro s acc
    have hc : c ≠ '\n' := fun h => hx (h ▸ List.mem_cons_self c r)
    have hr : '\n' ∉ r := fun h => hx (List.mem_cons_of_mem c h)
    calc linesAux ((c :: r) ++ s) acc
        = linesAux (r ++ s) (c :: acc) := by
          rw [List.cons_append, linesAux_cons_other c hc]
      _ = linesAux s (r.reverse ++ (c :: acc)) := ih hr s (c :: acc)
      _ = linesAux s ((c :: r).reverse ++ acc) := by simp

lemma linesAux_append_newline :
    ∀ (s : Str), s ≠ [] → s.getLast? ≠ some '\n' → s.getLast? ≠ some '\r' →
      ∀ acc, linesAux (s ++ ['\n']) acc = linesAux s acc := by
  intro s
  induction s with
  | nil => intro h; exact absurd rfl h
  | cons c r ih =>
    intro _ h1 h2 acc
    cases r with
    | nil =>
      simp only [List.getLast?_singleton] at h1 h2
      have hc1 : c ≠ '\n' := fun h => h1 (by rw [h])
      have hc2 : c ≠ '\r' := fun h => h2 (by rw [h])
      rw [List.cons_append, linesAux_cons_other c hc1, List.nil_append,
        linesAux_cons_newline, linesAux_cons_other c hc1]
      rw [dropCR_of_head (c :: acc) (by simp [hc2])]
      rfl
    | cons d t =>
      rw [List.getLast?_cons_cons] at h1 h2
      by_cases hc : c = '\n'
      · subst hc
        rw [List.cons_append, linesAux_cons_newline, linesAux_cons_newline,
          ih (by simp) h1 h2 []]
      · rw [List.cons_append, linesAux_cons_other c hc, linesAux_cons_other c hc,
          ih (by simp) h1 h2 (c :: acc)]

lemma rustLines_append_newline (s : Str) (hne : s ≠ [])
    (h1 : s.getLast? ≠ some '\n') (h2 : s.getLast? ≠ some '\r') :
    rustLines (s ++ ['\n']) = rustLines s :=
  linesAux_append_newline s hne h1 h2 []

lemma rustLines_joinLF_cons (x : Str) (l : List Str) (hl : l ≠ [])
    (hnx : '\n' ∉ x) (hrx : '\r' ∉ x) :
    rustLines (joinLF (x :: l)) = x :: rustLines (joinLF l) := by
  cases l with
  | nil => exact absurd rfl hl
  | cons y rest =>
    show rustLines (x ++ '\n' :: joinLF (y :: rest)) = _
    unfold rustLines
    rw [linesAux_append_no_newline x hnx ('\n' :: joinLF (y :: rest)) [],
      linesAux_cons_newline, List.append_nil, dropCR_reverse x hrx,
      List.reverse_reverse]

lemma rustLines_joinCRLF_cons (x : Str) (l : List Str) (hl : l ≠ [])
    (hnx : '\n' ∉ x) :
    rustLines (joinCRLF (x :: l)) = x :: rustLines (joinCRLF l) := by
  cases l with
  | nil => exact absurd rfl hl
  | cons y rest =>
    show rustLines (x ++ '\r' :: '\n' :: joinCRLF (y :: rest)) = _
    unfold rustLines
    rw [linesAux_append_no_newline x hnx ('\r' :: '\n' :: joinCRLF (y :: rest)) [],
      linesAux_cons_other '\r' (by decide), linesAux_cons_newline]
    simp [dropCR]

lemma rustLines_joinCRLF_eq_joinLF :
    ∀ l : List Str, (∀ x ∈ l, '\n' ∉ x ∧ '\r' ∉ x) →
      rustLines (joinCRLF l) = rustLines (joinLF l) := by
  intro l
  induction l with
  | nil => intro _; rfl
  | cons x r ih =>
    intro h
    cases r with
    | nil => rfl
    | cons y rest =>
      have hx := h x (List.mem_cons_self x _)
      rw [rustLines_joinCRLF_cons x (y :: rest) (by simp) hx.1,
        rustLines_joinLF_cons x (y :: rest) (by simp) hx.1 hx.2,
        ih (fun z hz => h z (List.mem_cons_of_mem x hz))]

/-- Whether a string ends in exactly one `'\n'` (spec's "terminated by
exactly one trailing newline"). -/
def ends_with_exactly_one_newline (s : Str) : Bool :=
  s.getLast? == some '\n' && !(s.dropLast.getLast? == some '\n')

/-- C10 counterexample: the claim's corollary "texts differing only in the
presence of a final trailing newline compare as Match" fails for the empty
text versus a lone newline, and for a text ending in a carriage return. -/
theorem claim_C10_counterexample :
    Test.compare ([]) (['\n']) = .Mismatch ∧
    Test.compare (['a', '\r']) (['a', '\r', '\n']) = .Mismatch := by
  constructor <;> rfl

/-- C10 (amended): `Test::compare` is line-sequence equality: the result is
Match iff the two texts split into equal line sequences.  Consequently a
nonempty text not ending in `'\n'` or `'\r'` compares as Match against
itself with a final newline appended, and a line list joined with CRLF
endings compares as Match against the same lines joined with LF endings. -/
theorem claim_C10_theorem : ∀ (actual expected : Str),
    (Test.compare actual expected = .Match ↔
      rustLines actual = rustLines expected) ∧
    (actual ≠ [] → actual.getLast? ≠ some '\n' → actual.getLast? ≠ some '\r' →
      Test.compare actual (actual ++ ['\n']) = .Match ∧
      Test.compare (actual ++ ['\n']) actual = .Match) ∧
    (∀ l : List Str, (∀ x ∈ l, '\n' ∉ x ∧ '\r' ∉ x) →
      Test.compare (joinLF l) (joinCRLF l) = .Match) := by
  intro actual expected
  have hiff : ∀ a e : Str,
      Test.compare a e = .Match ↔ rustLines a = rustLines e := by
    intro a e
    unfold Test.compare
    by_cases h : rustLines a = rustLines e <;> simp [h]
  refine ⟨hiff actual expected, fun hne h1 h2 => ?_, fun l hl => ?_⟩
  · have h := rustLines_append_newline actual hne h1 h2
    exact ⟨(hiff _ _).mpr h.symm, (hiff _ _).mpr h⟩
  · exact (hiff _ _).mpr (rustLines_joinCRLF_eq_joinLF l hl).symm

/-- C10 witness: the amended claim at concrete inputs. -/
theorem claim_C10_witness :
    Test.compare ("fn main()".toList) (("fn main()".toList : Str) ++ ['\n']) =
        .Match ∧
    Test.compare (joinLF [("a".toList), ("b".toList)])
        (joinCRLF [("a".toList), ("b".toList)]) = .Match :=
  ⟨((claim_C10_theorem ("fn main()".toList) ([])).2.1 (by decide) (by decide)
      (by decide)).1,
    (claim_C10_theorem ([]) ([])).2.2 [("a".toList), ("b".toList)] (by decide)⟩

/-- C7 counterexample: for an input that already ends in two newlines,
`post_process` returns it unchanged, so the result is *not* terminated by
exactly one trailing newline as the claim states for every raw input. -/
theorem claim_C7_counterexample :
    post_process ("a\n\n".toList) = some ("a\n\n".toList) ∧
    ends_with_exactly_one_newline ("a\n\n".toList) = false := by
  constructor <;> rfl

/-- C7 (amended): `post_process` returns `none` exactly when the input is
empty or whitespace-only; otherwise the returned text ends in a newline, is
never empty or whitespace-only, an input that already ends in one or more
newlines is returned unchanged, and — whenever the input did not already end
in a newline — the result equals the input with a single `'\n'` appended,
hence ends in exactly one newline. -/
theorem claim_C7_theorem : ∀ s : Str,
    (post_process s = none ↔ is_empty_or_only_whitespace s = true) ∧
    (∀ t, post_process s = some t →
      t.getLast? = some '\n' ∧
      is_empty_or_only_whitespace t = false ∧
      (s.getLast? = some '\n' → t = s) ∧
      (s.getLast? ≠ some '\n' →
        t = s ++ ['\n'] ∧ ends_with_exactly_one_newline t = true)) := by
  intro s
  by_cases hw : is_empty_or_only_whitespace s
  · refine ⟨by simp [post_process, hw], fun t ht => ?_⟩
    simp [post_process, hw] at ht
  · have hs : post_process s = some (ensure_trailing_newline s) := by
      simp [post_process, hw]
    refine ⟨by simp [hs, hw], fun t ht => ?_⟩
    rw [hs] at ht
    injection ht with ht
    subst ht
    have hne : s ≠ [] := by
      intro h
      exact hw (by simp [h, is_empty_or_only_whitespace])
    have hnotall : s.all rustIsWhitespace = false := by
      cases hcase : List.all s rustIsWhitespace with
      | false => rfl
      | true => exact absurd (by simp [is_empty_or_only_whitespace, hcase]) hw
    obtain ⟨c, hc, hcw⟩ := by
      simpa using (List.all_eq_false).mp hnotall
    by_cases hl : s.getLast? = some '\n'
    · rw [ensure_trailing_newline, if_pos hl]
      refine ⟨hl, ?_, fun _ => rfl, fun h => absurd hl h⟩
      simp only [is_empty_or_only_whitespace, Bool.or_eq_false_iff]
      constructor
      · simp [List.isEmpty_iff, hne]
      · exact List.all_eq_false.mpr ⟨c, hc, by simp [hcw]⟩
    · rw [ensure_trailing_newline, if_neg hl]
      refine ⟨List.getLast?_concat s, ?_, fun h => absurd h hl,
        fun _ => ⟨rfl, ?_⟩⟩
      · simp only [is_empty_or_only_whitespace, Bool.or_eq_false_iff]
        constructor
        · simp [List.isEmpty_iff]
        · exact List.all_eq_false.mpr ⟨c, by simp [hc], by simp [hcw]⟩
      · simp [ends_with_exactly_one_newline, List.getLast?_concat,
          List.dropLast_concat, hl]

/-- C7 witness: the amended claim at concrete inputs — one without a
trailing newline (a single newline is appended, yielding exactly one), and
one already ending in a newline (returned unchanged). -/
theorem claim_C7_witness :
    ensure_trailing_newline ("abc".toList) = ("abc".toList : Str) ++ ['\n'] ∧
    ends_with_exactly_one_newline (ensure_trailing_newline ("abc".toList)) =
      true ∧
    ensure_trailing_newline ("a\n".toList) = ("a\n".toList : Str) := by
  have h1 := ((claim_C7_theorem ("abc".toList)).2
    (ensure_trailing_newline ("abc".toList)) (by rfl)).2.2.2 (by decide)
  have h2 := ((claim_C7_theorem ("a\n".toList)).2
    (ensure_trailing_newline ("a\n".toList)) (by rfl)).2.2.1 (by decide)
  exact ⟨h1.1, h1.2, h2⟩

/-- C1: for Expand and Test actions with a successful process exit, an
error-marker line in the normalized stderr (a trimmed line starting with
"error:" or "error[" for Expand; a line starting with "test result: FAILED."
for Test) forces the Evaluation to Failure, and a process failure exit
always yields Failure. -/
theorem claim_C1_theorem : ∀ (stderr : Str) (o : Option Str),
    ((rustLines stderr).any line_is_error = true →
      expand_evaluation .Success (some stderr) = .Failure) ∧
    ((rustLines stderr).any line_is_test_failed = true →
      test_evaluation .Success (some stderr) = .Failure) ∧
    expand_evaluation .Failure o = .Failure ∧
    test_evaluation .Failure o = .Failure := by
  intro stderr o
  refine ⟨fun h => ?_, fun h => ?_, rfl, rfl⟩
  · simp [expand_evaluation, h, TestStatus.failure, TestStatus.success]
  · simp [test_evaluation, h, TestStatus.failure, TestStatus.success]

/-- C1 witness: concrete marker lines force Failure despite exit success. -/
theorem claim_C1_witness :
    expand_evaluation .Success (some ("error: expected item".toList)) =
        .Failure ∧
    test_evaluation .Success
        (some ("test result: FAILED. 0 passed".toList)) = .Failure :=
  ⟨(claim_C1_theorem ("error: expected item".toList) none).1 (by decide),
    (claim_C1_theorem ("test result: FAILED. 0 passed".toList) none).2.1
      (by decide)⟩

/-- Whether a normalized stderr stream carries an Expand error marker. -/
def stderr_has_error_marker : Option Str → Bool
  | none => false
  | some stderr => (rustLines stderr).any line_is_error

/-- C2 counterexample: on a successful exit with empty captured stdout (and
empty stderr) the Expand evaluation is Success with an absent stdout — the
claim demands Failure whenever stdout is empty, so the stdout-non-empty
conjunct does not hold of the code. -/
theorem claim_C2_counterexample :
    (expand ⟨some [], some [], .Success⟩ (fun s => s)
        ⟨[], [], [], [], []⟩ ⟨[], []⟩).evaluation = .Success ∧
    (expand ⟨some [], some [], .Success⟩ (fun s => s)
        ⟨[], [], [], [], []⟩ ⟨[], []⟩).stdout = none := by
  constructor <;> rfl

/-- C2 (amended): the Expand evaluation is Success iff the process exit was
success and the normalized stderr contains no error-marker line; the
captured stdout is not consulted (in particular a successful exit with
empty stdout still evaluates to Success). -/
theorem claim_C2_theorem : ∀ (raw : CargoOutput) (strip_prelude : Str → Str)
    (project : Project) (test : Test),
    (expand raw strip_prelude project test).evaluation = .Success ↔
      (raw.evaluation = .Success ∧
        stderr_has_error_marker
          ((expand raw strip_prelude project test).stderr) = false) := by
  intro raw strip_prelude project test
  unfold expand
  cases hs : raw.evaluation with
  | Failure => simp [expand_evaluation]
  | Success =>
    cases he : raw.stderr.bind
        (fun s => Normalization.expand_stderr s project test) with
    | none => simp [expand_evaluation, he, stderr_has_error_marker]
    | some e =>
      simp only [expand_evaluation, he, stderr_has_error_marker, true_and]
      cases hm : (rustLines e).any line_is_error <;>
        simp [TestStatus.failure, TestStatus.success, hm]

/-- C3: under ExpectFiles behavior the comparator maps the four
absent/present combinations exactly as specified, with a line-based
comparison when both sides are present, and never writes a file. -/
theorem claim_C3_theorem : ∀ (p a e : Str),
    evaluate_snapshot_expecting_files none none p =
      (some (.SnapshotMatch p), []) ∧
    evaluate_snapshot_expecting_files (some e) none p =
      (some (.SnapshotUnexpected p e), []) ∧
    evaluate_snapshot_expecting_files none (some a) p =
      (some (.SnapshotExpected p a), []) ∧
    ((evaluate_snapshot_expecting_files (some e) (some a) p).1 =
        some (.SnapshotMatch p) ↔ rustLines a = rustLines e) ∧
    ((evaluate_snapshot_expecting_files (some e) (some a) p).1 =
        some (.SnapshotMismatch p a e) ↔ ¬rustLines a = rustLines e) ∧
    (evaluate_snapshot_expecting_files (some e) (some a) p).2 = [] := by
  intro p a e
  refine ⟨rfl, rfl, rfl, ?_, ?_, ?_⟩ <;>
    · unfold evaluate_snapshot_expecting_files Test.compare
      by_cases h : rustLines a = rustLines e <;> simp [h]

/-- C3 witness: the ExpectedButMissing case at a concrete input (present
actual, no snapshot on disk): outcome reported, no file written. -/
theorem claim_C3_witness :
    evaluate_snapshot_expecting_files none (some ("fn main()\n".toList))
        ("t.expanded.rs".toList) =
      (some (.SnapshotExpected ("t.expanded.rs".toList)
          ("fn main()\n".toList)), []) :=
  (claim_C3_theorem ("t.expanded.rs".toList) ("fn main()\n".toList)
      ([])).2.2.1

/-- C4: under OverwriteFiles behavior: absent actual touches nothing (even
when a stale snapshot exists); present actual with no snapshot writes the
file and reports Created; present actual differing from the snapshot
overwrites and reports Updated; present actual identical to the snapshot
writes nothing and emits no outcome. -/
theorem claim_C4_theorem : ∀ (p e a : Str),
    evaluate_snapshot_overwriting_files (some e) none p = (none, []) ∧
    evaluate_snapshot_overwriting_files none none p = (none, []) ∧
    evaluate_snapshot_overwriting_files none (some a) p =
      (some (.SnapshotCreated p a), [(p, a)]) ∧
    (a ≠ e → evaluate_snapshot_overwriting_files (some e) (some a) p =
      (some (.SnapshotUpdated p e a), [(p, a)])) ∧
    evaluate_snapshot_overwriting_files (some a) (some a) p = (none, []) := by
  intro p e a
  refine ⟨rfl, rfl, rfl, fun h => ?_, ?_⟩
  · unfold evaluate_snapshot_overwriting_files
    simp [h]
  · unfold evaluate_snapshot_overwriting_files
    simp

/-- C4 witness: Scenario D — identical actual and snapshot yield no write
and no outcome; a fresh actual is written and reported Created. -/
theorem claim_C4_witness :
    evaluate_snapshot_overwriting_files (some ("fn main() \x7b\x7d\n".toList))
        (some ("fn main() \x7b\x7d\n".toList)) ("t.expanded.rs".toList) =
      (none, []) ∧
    evaluate_snapshot_overwriting_files (some ("old\n".toList))
        (some ("new\n".toList)) ("t.expanded.rs".toList) =
      (some (.SnapshotUpdated ("t.expanded.rs".toList) ("old\n".toList)
          ("new\n".toList)), [(("t.expanded.rs".toList), ("new\n".toList))]) :=
  ⟨(claim_C4_theorem ("t.expanded.rs".toList) ([])
        ("fn main() \x7b\x7d\n".toList)).2.2.2.2,
    (claim_C4_theorem ("t.expanded.rs".toList) ("old\n".toList)
        ("new\n".toList)).2.2.2.1 (by decide)⟩

/-- C5: when the primary action evaluates to Failure the configured
post-action is not run (the report carries no post-action output) and the
combined evaluation is Failure; whenever a post-action output is present,
the combined evaluation is the conjunction of the two evaluations, so it is
Success exactly when both are Success. -/
theorem claim_C5_theorem : ∀ (action_output : ActionOutput)
    (post_action : Option PostAction) (run_post : PostAction → ActionOutput),
    (action_output.evaluation = .Failure →
      (make_report action_output post_action run_post).post_action = none ∧
      (make_report action_output post_action run_post).evaluation =
        .Failure) ∧
    (∀ (r : TestReport) (po : ActionOutput), r.post_action = some po →
      (r.evaluation = .Success ↔
        r.action.evaluation = .Success ∧ po.evaluation = .Success)) := by
  intro action_output post_action run_post
  constructor
  · intro hf
    have hne : ¬action_output.evaluation = .Success := by
      rw [hf]; intro h; cases h
    have hpost : (make_report action_output post_action run_post).post_action
        = none := by
      unfold make_report
      simp [hne]
    refine ⟨hpost, ?_⟩
    unfold TestReport.evaluation
    rw [hpost]
    exact hf
  · intro r po h
    unfold TestReport.evaluation
    rw [h]
    cases h1 : r.action.evaluation <;> cases h2 : po.evaluation <;>
      simp [TestStatus.band, h1, h2]

/-- C5 witness: Scenario E at concrete inputs — a failing Expand action
yields a report with no post-action output and combined evaluation Failure;
a report combining a successful Expand with a failed Check evaluates to
Failure (not Success). -/
theorem claim_C5_witness :
    (make_report (.Expand ⟨none, none, .Failure⟩) (some .Check)
        (fun _ => .Check ⟨none, none, .Success⟩)).post_action = none ∧
    (make_report (.Expand ⟨none, none, .Failure⟩) (some .Check)
        (fun _ => .Check ⟨none, none, .Success⟩)).evaluation = .Failure ∧
    ¬(TestReport.mk (.Expand ⟨some [], none, .Success⟩)
        (some (.Check ⟨none, none, .Failure⟩))).evaluation = .Success := by
  have h1 := (claim_C5_theorem (.Expand ⟨none, none, .Failure⟩) (some .Check)
    (fun _ => .Check ⟨none, none, .Success⟩)).1 rfl
  have h2 := (claim_C5_theorem (.Expand ⟨none, none, .Failure⟩) (some .Check)
    (fun _ => .Check ⟨none, none, .Success⟩)).2
    (TestReport.mk (.Expand ⟨some [], none, .Success⟩)
      (some (.Check ⟨none, none, .Failure⟩)))
    (.Check ⟨none, none, .Failure⟩) rfl
  refine ⟨h1.1, h1.2, fun hs => ?_⟩
  have := (h2.mp hs).2
  cases this

/-- C8: the behavior-selecting environment variable maps: unset or "expect"
to ExpectFiles, "overwrite" to OverwriteFiles, and any other value to an
unrecognized-environment error naming the key and the offending value. -/
theorem claim_C8_theorem :
    test_behavior_from_env none = .ok .ExpectFiles ∧
    test_behavior_from_env (some TRYEXPAND_ENV_VAL_EXPECT) =
      .ok .ExpectFiles ∧
    test_behavior_from_env (some TRYEXPAND_ENV_VAL_OVERWRITE) =
      .ok .OverwriteFiles ∧
    (∀ value : Str, value ≠ TRYEXPAND_ENV_VAL_EXPECT →
      value ≠ TRYEXPAND_ENV_VAL_OVERWRITE →
      test_behavior_from_env (some value) =
        .error (.UnrecognizedEnv TRYEXPAND_ENV_KEY value)) := by
  refine ⟨rfl, ?_, ?_, fun value h1 h2 => ?_⟩
  · unfold test_behavior_from_env
    simp
  · unfold test_behavior_from_env
    simp [TRYEXPAND_ENV_VAL_EXPECT, TRYEXPAND_ENV_VAL_OVERWRITE]
  · unfold test_behavior_from_env
    simp [h1, h2]

/-- C8 witness: a concrete unrecognized value is rejected with the key and
value in the error. -/
theorem claim_C8_witness :
    test_behavior_from_env (some ("Overwrite".toList)) =
      .error (.UnrecognizedEnv TRYEXPAND_ENV_KEY ("Overwrite".toList)) :=
  claim_C8_theorem.2.2.2 ("Overwrite".toList) (by decide) (by decide)

/-- C9: the per-stream normalization output depends on nothing but the raw
input and the identifying project/test fields it reads (crate name,
manifest directory, binary-target name): two projects and tests agreeing on
those fields produce byte-identical normalized output, whatever their other
state (directories, test lists, source paths).  In this embedding the
normalization functions are total functions of their arguments, so purity
of each call is structural. -/
theorem claim_C9_theorem : ∀ (input : Str) (p₁ p₂ : Project) (t₁ t₂ : Test),
    p₁.name = p₂.name → p₁.manifest_dir = p₂.manifest_dir → t₁.bin = t₂.bin →
    project_info_replacements p₁ t₁ = project_info_replacements p₂ t₂ ∧
    Normalization.expand_stderr input p₁ t₁ =
      Normalization.expand_stderr input p₂ t₂ := by
  intro input p₁ p₂ t₁ t₂ hname hdir hbin
  have hrep : project_info_replacements p₁ t₁ =
      project_info_replacements p₂ t₂ := by
    unfold project_info_replacements
    rw [hname, hdir, hbin]
  refine ⟨hrep, ?_⟩
  unfold Normalization.expand_stderr
  rw [hrep]

/-- C9 witness: two projects differing in every non-identifying field (and
tests differing in source path) normalize a concrete stderr stream to the
same bytes. -/
theorem claim_C9_witness :
    Normalization.expand_stderr ("error: oops".toList)
        ⟨("/tmp/a".toList), ("/home/x".toList), ("/tmp/a/t".toList),
          ("c_h1".toList), []⟩
        ⟨("c_h1_t1".toList), ("tests/expand/a.rs".toList)⟩ =
      Normalization.expand_stderr ("error: oops".toList)
        ⟨("/tmp/b".toList), ("/home/x".toList), ("/tmp/b/t".toList),
          ("c_h1".toList), [⟨[], []⟩]⟩
        ⟨("c_h1_t1".toList), ("tests/expand/b.rs".toList)⟩ :=
  (claim_C9_theorem ("error: oops".toList) _ _ _ _ rfl rfl rfl).2

/-- C6 counterexample: with one stream yielding a success-status outcome
(both sides absent ⇒ Match) and another a failure-status outcome
(ExpectedButMissing), the aggregated status is Failure, but only the
failure-status outcome is forwarded to the observer: the Match outcome that
was produced for the first stream is dropped, refuting "every reported
outcome (both success-status and failure-status outcomes) is forwarded". -/
theorem claim_C6_counterexample :
    (collect_outcomes [(("p1".toList), none), (("p2".toList),
        some ("x\n".toList))] .ExpectFiles (fun _ => none)).2.1 =
      [.SnapshotMatch ("p1".toList),
        .SnapshotExpected ("p2".toList) ("x\n".toList)] ∧
    (evaluate_snapshots [(("p1".toList), none), (("p2".toList),
        some ("x\n".toList))] .ExpectFiles (fun _ => none)).1 = .Failure ∧
    (evaluate_snapshots [(("p1".toList), none), (("p2".toList),
        some ("x\n".toList))] .ExpectFiles (fun _ => none)).2.1 =
      [.SnapshotExpected ("p2".toList) ("x\n".toList)] ∧
    TestOutcome.SnapshotMatch ("p1".toList) ∉
      (evaluate_snapshots [(("p1".toList), none), (("p2".toList),
          some ("x\n".toList))] .ExpectFiles (fun _ => none)).2.1 := by
  refine ⟨rfl, rfl, rfl, ?_⟩
  decide

/-- C6 (amended): the aggregated status is Failure iff some per-stream
outcome has failure status (equivalently, is not one of Match, Created,
Updated); when a failure-status outcome exists, exactly the failure-status
outcomes are forwarded to the observer, and otherwise all (success-status)
outcomes are forwarded. -/
theorem claim_C6_theorem : ∀ (snapshots : List (Str × Option Str))
    (behavior : TestBehavior) (fs : FileSystem),
    ((evaluate_snapshots snapshots behavior fs).1 = .Failure ↔
      ((collect_outcomes snapshots behavior fs).2.1.any
        (fun o => o.as_status = .Failure)) = true) ∧
    ((evaluate_snapshots snapshots behavior fs).2.1 =
      if (collect_outcomes snapshots behavior fs).2.1.any
            (fun o => o.as_status = .Failure)
      then (collect_outcomes snapshots behavior fs).2.1.filter
              (fun o => o.as_status = .Failure)
      else (collect_outcomes snapshots behavior fs).2.1) ∧
    (∀ o : TestOutcome, o.as_status = .Success ↔
      ((∃ p, o = .SnapshotMatch p) ∨ (∃ p a, o = .SnapshotCreated p a) ∨
        (∃ p b a, o = .SnapshotUpdated p b a))) := by
  intro snapshots behavior fs
  have houtcome : ∀ o : TestOutcome, o.as_status = .Success ↔
      ((∃ p, o = .SnapshotMatch p) ∨ (∃ p a, o = .SnapshotCreated p a) ∨
        (∃ p b a, o = .SnapshotUpdated p b a)) := by
    intro o
    cases o <;> simp [TestOutcome.as_status]
  set outs := (collect_outcomes snapshots behavior fs).2.1 with houts
  have hnot : ∀ o ∈ outs,
      (not ∘ fun o : TestOutcome => decide (o.as_status = .Success)) o =
        decide (o.as_status = .Failure) := by
    intro o _
    cases h : o.as_status <;> simp [h]
  have hfilter : outs.filter
        (not ∘ fun o : TestOutcome => decide (o.as_status = .Success)) =
      outs.filter (fun o => decide (o.as_status = .Failure)) :=
    List.filter_congr hnot
  have heval : evaluate_snapshots snapshots behavior fs =
      if !(outs.filter (fun o => decide (o.as_status = .Failure))).isEmpty
      then (.Failure, outs.filter (fun o => decide (o.as_status = .Failure)),
        (collect_outcomes snapshots behavior fs).2.2)
      else (.Success,
        outs.filter (fun o : TestOutcome => decide (o.as_status = .Success)),
        (collect_outcomes snapshots behavior fs).2.2) := by
    unfold evaluate_snapshots
    simp only [List.partition_eq_filter_filter, ← houts]
    rw [hfilter]
  cases hany : outs.any (fun o => decide (o.as_status = .Failure)) with
  | true =>
    obtain ⟨x, hx, hpx⟩ := List.any_eq_true.mp hany
    have hmem : x ∈ outs.filter (fun o => decide (o.as_status = .Failure)) :=
      List.mem_filter.mpr ⟨hx, hpx⟩
    have hne : (outs.filter
        (fun o => decide (o.as_status = .Failure))).isEmpty = false := by
      cases hcase : (outs.filter
          (fun o => decide (o.as_status = .Failure))).isEmpty with
      | false => rfl
      | true =>
        rw [List.isEmpty_iff.mp hcase] at hmem
        cases hmem
    rw [heval, hne]
    refine ⟨?_, ?_, houtcome⟩
    · simp [hany]
    · simp [hany]
  | false =>
    have hall : ∀ o ∈ outs, o.as_status = .Success := by
      intro o ho
      have := List.any_eq_false.mp hany o ho
      cases h : o.as_status with
      | Success => rfl
      | Failure => exact absurd (by simp [h]) this
    have hnil : outs.filter (fun o => decide (o.as_status = .Failure)) = [] :=
      List.filter_eq_nil_iff.mpr
        (fun o ho => by simp [hall o ho])
    rw [heval, hnil]
    refine ⟨?_, ?_, houtcome⟩
    · simp [hany]
    · have hself : outs.filter
          (fun o : TestOutcome => decide (o.as_status = .Success)) = outs :=
        List.filter_eq_self.mpr (fun o ho => by simp [hall o ho])
      simp [hany, hself]

end Tryexpand
